import Mathlib

/-!
Shallow embedding of `ttl-flat-cache` (`src/index.ts`): a key-value cache
with optional per-entry TTL expiry, layered over a persisted key-value
store (the `flat-cache` collaborator, specified in spec §6 as
`PersistentStore`).

Modelling conventions:
* Time instants and TTLs are modelled as `Int` (the source uses dayjs
  instants with millisecond precision and TTL arguments in seconds; the
  claims only depend on ordering and `now + ttl`, so a single integer
  time scale suffices, with `expires = now + effectiveTTL`).
* A JavaScript numeric input (the `ttl` argument of `set` and of the
  constructor, typed `number | undefined`) is modelled by `JSNum`:
  `valid n` for a value whose `Number(·)` coercion is the finite number
  `n`, and `nan` for a value whose coercion is `NaN` (this includes
  `undefined`, since `Number(undefined)` is `NaN`).
* The backing store is a JavaScript object keyed by strings: an
  insertion-ordered association list with no duplicate keys. Its
  operations (`getKey`, `setKey`, `removeKey`, `all`) are modelled from
  the spec §6 `PersistentStore` contract, since `flat-cache` is an
  external dependency whose code is not part of this repository.
* `dayjs.duration(exp.diff(now)).humanize(true)` is an opaque
  presentation function; it is modelled as an explicit parameter
  `humanize : Int → String` applied to `exp - now`.
-/

namespace TTLCache

/-- A JavaScript numeric input as seen through `Number(·)`: either a
finite number or `NaN` (which is what `undefined` and non-numeric
strings coerce to). -/
inductive JSNum where
  | valid (n : Int)
  | nan
deriving DecidableEq, Repr

/-- `function to_num(val) { return !isNaN(Number(val)) ? Number(val) : 0; }`
(src/index.ts lines 175-177). -/
def to_num : JSNum → Int
  | .valid n => n
  | .nan => 0

/-- `to_num` applied to `this.defaultTTL : number | null`: `Number(null)`
is `0` (not `NaN`), so a `null` default TTL coerces to `0`. -/
def to_numNull : Option Int → Int
  | some n => n
  | none => 0

/-- JavaScript `a || b` on numbers produced by `to_num`: `to_num` never
returns `NaN`, so the only falsy value is `0`. -/
def jsOr (a b : Int) : Int :=
  if a = 0 then b else a

/-- Constructor normalization of the `ttl` option
(`this.defaultTTL = !isNaN(Number(ttl)) ? Number(ttl) : null;`,
src/index.ts line 50). -/
def normalizeDefaultTTL : JSNum → Option Int
  | .valid n => some n
  | .nan => none

/-- The `CacheEntry` envelope `{expires, value}` stored under each key
(src/index.ts lines 153-156). `expires : Date | null` is modelled as
`Option Int`. -/
structure Entry (V : Type) where
  expires : Option Int
  value : V
deriving DecidableEq, Repr

/-- The persisted store: a JavaScript object mapping string keys to
entries, i.e. an insertion-ordered association list without duplicate
keys. Modelled from the spec §6 `PersistentStore` contract (the
`flat-cache` collaborator is not part of the sources of this repository). -/
abbrev Store (V : Type) := List (String × Entry V)

/-- Association-list lookup, polymorphic so it also serves to look keys
up in the mapping returned by `all`. Models `PersistentStore.getEntry`
(JavaScript property read on a string-keyed object). -/
def getKey (k : String) : List (String × α) → Option α
  | [] => none
  | kv :: rest => if kv.1 = k then some kv.2 else getKey k rest

/-- Models `PersistentStore.setEntry` (JavaScript property write): an
existing key is overwritten in place, a new key is appended (JavaScript
string-key insertion order). -/
def setKey (k : String) (e : α) : List (String × α) → List (String × α)
  | [] => [(k, e)]
  | kv :: rest => if kv.1 = k then (k, e) :: rest else kv :: setKey k e rest

/-- Models `PersistentStore.removeEntry` / the effect of JavaScript `delete obj[key]`
on the object: the binding for `k` is dropped, every other
binding is kept in order. -/
def removeKey (k : String) : List (String × α) → List (String × α)
  | [] => []
  | kv :: rest => if kv.1 = k then removeKey k rest else kv :: removeKey k rest

/-- The store never holds two bindings for one key (a JavaScript object
cannot). -/
abbrev KeysNodup (s : List (String × α)) : Prop :=
  (s.map Prod.fst).Nodup

/-- `Cache.isExpired(expires)` with `returnTTL` at its default `false`
(src/index.ts lines 60-73): for a non-null `expires`, `now.isAfter(exp)`
— strictly after; for `null`, `false`. -/
def isExpired (now : Int) (expires : Option Int) : Bool :=
  match expires with
  | some e => decide (e < now)
  | none => false

/-- `Cache.isExpired(expires, true)` (the `returnTTL = true` branch of
the same function): `dayjs.duration(exp.diff(now)).humanize(true)`,
with the humanizer abstracted as a parameter applied to `exp - now`.
For a `null` expires the source returns `false`; callers only take this
branch when `expires` is non-null, and the falsy result is modelled as
`none`. -/
def isExpiredTTL (humanize : Int → String) (now : Int) :
    Option Int → Option String
  | some e => some (humanize (e - now))
  | none => none

/-- `Cache.invalidateKey(key)` (src/index.ts lines 80-93): evicts the
key if expired, otherwise returns the humanized remaining TTL (or
`null`). Returns the updated store paired with the `string | null`
result; `remainingTTL ? remainingTTL : null` maps an empty (falsy)
string to `null`. -/
def invalidateKey (humanize : Int → String) (now : Int) (k : String)
    (s : Store V) : Store V × Option String :=
  match getKey k s with
  | some data =>
    match data.expires with
    | some _ =>
      if isExpired now data.expires then
        (removeKey k s, none)
      else
        match isExpiredTTL humanize now data.expires with
        | some r => (s, if r = "" then none else some r)
        | none => (s, none)
    | none => (s, none)
  | none => (s, none)

/-- `Cache.get(key)` (src/index.ts lines 119-123): invalidate, then read;
returns the updated store paired with `value | null`. -/
def get (humanize : Int → String) (now : Int) (k : String) (s : Store V) :
    Store V × Option V :=
  let s1 := (invalidateKey humanize now k s).1
  match getKey k s1 with
  | some data => (s1, some data.value)
  | none => (s1, none)

/-- `Cache.del(key)` (src/index.ts lines 130-132): declared
`del(key: string): void`, body `this.cache.removeKey(key);` with no
return statement, so the call evaluates to `undefined`. The JavaScript
return value is modelled as `Option Bool` with `none` for `undefined`. -/
def del (k : String) (s : Store V) : Store V × Option Bool :=
  (removeKey k s, none)

/-- The `{key, expires}` record returned by `Cache.ttl`. -/
structure TTLResult where
  key : String
  expires : Option String
deriving DecidableEq, Repr

/-- `Cache.ttl(key)` (src/index.ts lines 139-141):
`{ key, expires: this.invalidateKey(key) }`. -/
def ttl (humanize : Int → String) (now : Int) (k : String) (s : Store V) :
    Store V × TTLResult :=
  let r := invalidateKey humanize now k s
  (r.1, { key := k, expires := r.2 })

/-- `Cache.set(key, value, ttl?)` (src/index.ts lines 150-159):
`effectiveTTL = to_num(ttl) || to_num(this.defaultTTL)`, then store
`{expires: effectiveTTL ? now + effectiveTTL seconds : null, value}`. -/
def set (now : Int) (defaultTTL : Option Int) (k : String) (v : V)
    (ttlArg : JSNum) (s : Store V) : Store V :=
  let effectiveTTL := jsOr (to_num ttlArg) (to_numNull defaultTTL)
  let data : Entry V :=
    { expires := if effectiveTTL ≠ 0 then some (now + effectiveTTL) else none
      value := v }
  setKey k data s

/-- The loop body of `Cache.all` (src/index.ts lines 99-112): iterate
over a snapshot of the store's keys; an expired entry is deleted from
the returned mapping and removed from the store, a live entry is
unwrapped to its raw value. -/
def allGo (now : Int) : List (String × Entry V) → Store V →
    List (String × V) → Store V × List (String × V)
  | [], store, acc => (store, acc)
  | kv :: rest, store, acc =>
    if isExpired now kv.2.expires then
      allGo now rest (removeKey kv.1 store) acc
    else
      allGo now rest store (acc ++ [(kv.1, kv.2.value)])

/-- `Cache.all()` (src/index.ts lines 99-112): `data = this.cache.all()`
is a materialized snapshot (spec §6: `allEntries` returns a snapshot;
`Object.keys` materializes the key list up front), then the loop above
runs against the live store. Returns the updated store paired with the
returned mapping. -/
def all (now : Int) (s : Store V) : Store V × List (String × V) :=
  allGo now s s []

/-- `Cache.destroy()` (src/index.ts lines 170-172): clears all persisted
and in-memory state (spec §6 `PersistentStore.destroy`). -/
def destroy (_s : Store V) : Store V := []

/-- Directory resolution in the constructor (src/index.ts line 47):
`dir && fs.existsSync(path.dirname(dir)) ? dir : path.join(os.tmpdir(), "cache", ns)`.
The filesystem probe `fs.existsSync`, `path.dirname`, and the platform
temp directory are abstract parameters; `joinPath` models
`path.join` on already-normalized segments. An empty-string `dir` is
falsy in JavaScript, hence the `d ≠ ""` guard. -/
def joinPath (a b c : String) : String :=
  a ++ "/" ++ b ++ "/" ++ c

def resolveCacheDir (existsSync : String → Bool) (dirname : String → String)
    (tmpdir : String) (dir : Option String) (ns : String) : String :=
  match dir with
  | some d =>
    if d ≠ "" ∧ existsSync (dirname d) then d
    else joinPath tmpdir "cache" ns
  | none => joinPath tmpdir "cache" ns

/-- The legacy JavaScript variant's directory resolution
(src/unnamed/part_000 lines 58-59):
`dir = dir && fs.existsSync(path.dirname(dir)) ? dir : null;` followed
unconditionally by `dir = path.join(os.tmpdir(), "cache", ns);` — the
first assignment is dead. -/
def resolveCacheDirJS (existsSync : String → Bool)
    (dirname : String → String) (tmpdir : String) (dir : Option String)
    (ns : String) : String :=
  let _dir1 : Option String :=
    match dir with
    | some d =>
      if d ≠ "" ∧ existsSync (dirname d) then some d else none
    | none => none
  joinPath tmpdir "cache" ns

/-! ### Store lemmas -/

theorem getKey_setKey_self (k : String) (e : α) (s : List (String × α)) :
    getKey k (setKey k e s) = some e := by
  induction s with
  | nil => simp [setKey, getKey]
  | cons kv rest ih =>
    by_cases h : kv.1 = k
    · simp [setKey, getKey, h]
    · simp [setKey, getKey, h, ih]

theorem getKey_setKey_ne (h : k' ≠ k) (e : α) (s : List (String × α)) :
    getKey k' (setKey k e s) = getKey k' s := by
  have hkk : ¬ (k = k') := fun hh => h hh.symm
  induction s with
  | nil => simp [setKey, getKey, hkk]
  | cons kv rest ih =>
    by_cases hk : kv.1 = k
    · have hk1 : ¬ (kv.1 = k') := by rw [hk]; exact hkk
      simp [setKey, hk, getKey, hkk, hk1]
    · by_cases hk' : kv.1 = k'
      · simp [setKey, hk, getKey, hk', h, hkk]
      · simp [setKey, hk, getKey, hk', ih]

theorem getKey_removeKey_self (k : String) (s : List (String × α)) :
    getKey k (removeKey k s) = none := by
  induction s with
  | nil => rfl
  | cons kv rest ih =>
    by_cases h : kv.1 = k
    · simp [removeKey, h, ih]
    · simp [removeKey, h, getKey, ih]

theorem getKey_removeKey_ne (h : k' ≠ k) (s : List (String × α)) :
    getKey k' (removeKey k s) = getKey k' s := by
  have hkk : ¬ (k = k') := fun hh => h hh.symm
  induction s with
  | nil => rfl
  | cons kv rest ih =>
    by_cases hk : kv.1 = k
    · have hk1 : ¬ (kv.1 = k') := by rw [hk]; exact hkk
      simp [removeKey, hk, getKey, hk1, hkk, ih]
    · by_cases hk' : kv.1 = k'
      · simp [removeKey, hk, getKey, hk', h, hkk]
      · simp [removeKey, hk, getKey, hk', ih]

theorem getKey_eq_none_of_not_mem (k : String) (s : List (String × α))
    (h : ∀ kv ∈ s, kv.1 ≠ k) : getKey k s = none := by
  induction s with
  | nil => rfl
  | cons kv rest ih =>
    have h1 := h kv (by simp)
    simp only [getKey, if_neg h1]
    exact ih (fun kv' hm => h kv' (by simp [hm]))

theorem mem_of_getKey_eq_some (k : String) (e : α) (s : List (String × α))
    (h : getKey k s = some e) : (k, e) ∈ s := by
  induction s with
  | nil => simp [getKey] at h
  | cons kv rest ih =>
    by_cases hk : kv.1 = k
    · simp only [getKey, if_pos hk] at h
      obtain ⟨a, b⟩ := kv
      simp only at hk
      have hb : b = e := by injection h
      subst hk hb
      exact List.mem_cons_self _ _
    · simp only [getKey, if_neg hk] at h
      exact List.mem_cons_of_mem _ (ih h)

theorem getKey_of_mem_nodup (k : String) (e : α) (s : List (String × α))
    (hm : (k, e) ∈ s) (hn : KeysNodup s) : getKey k s = some e := by
  induction s with
  | nil => simp at hm
  | cons kv rest ih =>
    have hn' : kv.1 ∉ rest.map Prod.fst ∧ KeysNodup rest := by
      simpa [KeysNodup, List.nodup_cons] using hn
    rcases List.mem_cons.mp hm with heq | hmem
    · subst heq
      simp [getKey]
    · by_cases hk : kv.1 = k
      · exfalso
        apply hn'.1
        rw [hk]
        exact List.mem_map.mpr ⟨(k, e), hmem, rfl⟩
      · simp only [getKey, if_neg hk]
        exact ih hmem hn'.2

/-! ### Characterization of `all` -/

theorem allGo_snd (now : Int) (l : List (String × Entry V)) (store : Store V)
    (acc : List (String × V)) :
    (allGo now l store acc).2 = acc ++ l.filterMap (fun kv =>
      if isExpired now kv.2.expires then none else some (kv.1, kv.2.value)) := by
  induction l generalizing store acc with
  | nil => simp [allGo]
  | cons kv rest ih =>
    by_cases h : isExpired now kv.2.expires
    · simp [allGo, h, ih]
    · simp [allGo, h, ih]

theorem allGo_fst (now : Int) (l : List (String × Entry V)) (store : Store V)
    (acc : List (String × V)) :
    (allGo now l store acc).1 = l.foldl (fun st kv =>
      if isExpired now kv.2.expires then removeKey kv.1 st else st) store := by
  induction l generalizing store acc with
  | nil => simp [allGo]
  | cons kv rest ih =>
    by_cases h : isExpired now kv.2.expires
    · simp [allGo, h, ih]
    · simp [allGo, h, ih]

theorem getKey_evictFold_none (now : Int) (k : String)
    (l : List (String × Entry V)) (t : Store V)
    (h : getKey k t = none) :
    getKey k (l.foldl (fun st kv =>
        if isExpired now kv.2.expires then removeKey kv.1 st else st) t)
      = none := by
  induction l generalizing t with
  | nil => exact h
  | cons kv rest ih =>
    simp only [List.foldl_cons]
    by_cases hexp : isExpired now kv.2.expires
    · rw [if_pos hexp]
      refine ih (removeKey kv.1 t) ?_
      by_cases hk : kv.1 = k
      · rw [hk, getKey_removeKey_self]
      · rw [getKey_removeKey_ne (show k ≠ kv.1 from fun hh => hk hh.symm), h]
    · rw [if_neg hexp]
      exact ih t h

theorem getKey_evictFold_hit (now : Int) (k : String)
    (l : List (String × Entry V)) (t : Store V)
    (h : ∃ kv ∈ l, kv.1 = k ∧ isExpired now kv.2.expires) :
    getKey k (l.foldl (fun st kv =>
        if isExpired now kv.2.expires then removeKey kv.1 st else st) t)
      = none := by
  induction l generalizing t with
  | nil => simp at h
  | cons kv rest ih =>
    simp only [List.foldl_cons]
    rcases h with ⟨kv', hm, hk', hexp'⟩
    rcases List.mem_cons.mp hm with heq | hmem
    · subst heq
      rw [if_pos hexp', hk']
      exact getKey_evictFold_none now k rest (removeKey k t)
        (getKey_removeKey_self k t)
    · by_cases hexp : isExpired now kv.2.expires
      · rw [if_pos hexp]
        exact ih (removeKey kv.1 t) ⟨kv', hmem, hk', hexp'⟩
      · rw [if_neg hexp]
        exact ih t ⟨kv', hmem, hk', hexp'⟩

theorem getKey_evictFold_miss (now : Int) (k : String)
    (l : List (String × Entry V)) (t : Store V)
    (h : ∀ kv ∈ l, kv.1 = k → ¬ isExpired now kv.2.expires) :
    getKey k (l.foldl (fun st kv =>
        if isExpired now kv.2.expires then removeKey kv.1 st else st) t)
      = getKey k t := by
  induction l generalizing t with
  | nil => rfl
  | cons kv rest ih =>
    simp only [List.foldl_cons]
    have htail : ∀ kv' ∈ rest, kv'.1 = k → ¬ isExpired now kv'.2.expires :=
      fun kv' hm => h kv' (List.mem_cons_of_mem _ hm)
    by_cases hexp : isExpired now kv.2.expires
    · have hk : ¬ kv.1 = k := fun hk => h kv (by simp) hk hexp
      rw [if_pos hexp, ih (removeKey kv.1 t) htail,
        getKey_removeKey_ne (show k ≠ kv.1 from fun hh => hk hh.symm)]
    · rw [if_neg hexp]
      exact ih t htail

theorem all_fst_getKey (now : Int) (k : String) (s : Store V)
    (hn : KeysNodup s) :
    getKey k (all now s).1 = (match getKey k s with
      | some e => if isExpired now e.expires then none else some e
      | none => none) := by
  rw [all, allGo_fst]
  cases hkey : getKey k s with
  | none =>
    have hmiss : ∀ kv ∈ s, kv.1 = k → ¬ isExpired now kv.2.expires := by
      intro kv hm hk1 _
      have hmem : (k, kv.2) ∈ s := by rw [← hk1]; exact hm
      have hsome := getKey_of_mem_nodup k kv.2 s hmem hn
      rw [hkey] at hsome
      exact Option.noConfusion hsome
    rw [getKey_evictFold_miss now k s s hmiss, hkey]
  | some e =>
    by_cases hexp : isExpired now e.expires
    · rw [getKey_evictFold_hit now k s s
        ⟨(k, e), mem_of_getKey_eq_some k e s hkey, rfl, hexp⟩]
      simp [hexp]
    · have hmiss : ∀ kv ∈ s, kv.1 = k → ¬ isExpired now kv.2.expires := by
        intro kv hm hk1 hkexp
        have hmem : (k, kv.2) ∈ s := by rw [← hk1]; exact hm
        have hsome := getKey_of_mem_nodup k kv.2 s hmem hn
        rw [hkey] at hsome
        have he : kv.2 = e := (Option.some.inj hsome).symm
        rw [he] at hkexp
        exact hexp hkexp
      rw [getKey_evictFold_miss now k s s hmiss, hkey]
      simp [hexp]

theorem getKey_filterMap_entries_of_not_mem (k : String)
    (l : List (String × Entry V)) (now : Int)
    (h : ∀ kv ∈ l, kv.1 ≠ k) :
    getKey k (l.filterMap (fun kv =>
      if isExpired now kv.2.expires then none else some (kv.1, kv.2.value))) = none := by
  induction l with
  | nil => rfl
  | cons kv rest ih =>
    have h1 := h kv (by simp)
    have ih' := ih (fun kv' hm => h kv' (by simp [hm]))
    by_cases hexp : isExpired now kv.2.expires
    · simpa [List.filterMap_cons, hexp] using ih'
    · simpa [List.filterMap_cons, hexp, getKey, h1] using ih'

theorem all_snd_getKey (now : Int) (k : String) (s : Store V)
    (hn : KeysNodup s) :
    getKey k (all now s).2 = (match getKey k s with
      | some e => if isExpired now e.expires then none else some e.value
      | none => none) := by
  rw [all, allGo_snd, List.nil_append]
  induction s with
  | nil => rfl
  | cons kv rest ih =>
    have hn' : kv.1 ∉ rest.map Prod.fst ∧ KeysNodup rest := by
      simpa [KeysNodup, List.nodup_cons] using hn
    have hrest : ∀ kv' ∈ rest, kv'.1 ≠ kv.1 := by
      intro kv' hm heq
      exact hn'.1 (heq ▸ List.mem_map.mpr ⟨kv', hm, rfl⟩)
    by_cases hk : kv.1 = k
    · subst hk
      by_cases hexp : isExpired now kv.2.expires
      · have hnone := getKey_filterMap_entries_of_not_mem kv.1 rest now hrest
        simp [List.filterMap_cons, hexp, getKey, hnone]
      · simp [List.filterMap_cons, hexp, getKey]
    · by_cases hexp : isExpired now kv.2.expires
      · simpa [List.filterMap_cons, hexp, getKey, hk] using ih hn'.2
      · simpa [List.filterMap_cons, hexp, getKey, hk] using ih hn'.2

/-! ### Behavior of `invalidateKey` and `get` -/

theorem invalidateKey_missing (humanize : Int → String) (now : Int)
    (k : String) (s : Store V) (h : getKey k s = none) :
    invalidateKey humanize now k s = (s, none) := by
  simp only [invalidateKey, h]

theorem invalidateKey_noExpiry (humanize : Int → String) (now : Int)
    (k : String) (s : Store V) (v : V)
    (h : getKey k s = some ⟨none, v⟩) :
    invalidateKey humanize now k s = (s, none) := by
  simp only [invalidateKey, h]

theorem invalidateKey_expired (humanize : Int → String) (now : Int)
    (k : String) (s : Store V) (e : Entry V) (t : Int)
    (hk : getKey k s = some e) (he : e.expires = some t) (ht : t < now) :
    invalidateKey humanize now k s = (removeKey k s, none) := by
  have hexp : isExpired now (some t) = true := by simp [isExpired, ht]
  simp [invalidateKey, hk, he, hexp]

theorem invalidateKey_live (humanize : Int → String) (now : Int)
    (k : String) (s : Store V) (e : Entry V) (t : Int)
    (hk : getKey k s = some e) (he : e.expires = some t) (ht : ¬ t < now) :
    invalidateKey humanize now k s =
      (s, if humanize (t - now) = "" then none else some (humanize (t - now))) := by
  have hexp : isExpired now (some t) = false := by simp [isExpired, ht]
  simp [invalidateKey, hk, he, hexp, isExpiredTTL]

theorem get_missing (humanize : Int → String) (now : Int) (k : String)
    (s : Store V) (h : getKey k s = none) :
    get humanize now k s = (s, none) := by
  rw [get, invalidateKey_missing humanize now k s h]
  simp [h]

theorem get_live (humanize : Int → String) (now : Int) (k : String)
    (s : Store V) (e : Entry V)
    (hk : getKey k s = some e) (hexp : isExpired now e.expires = false) :
    get humanize now k s = (s, some e.value) := by
  match he : e.expires with
  | none =>
    have hk' : getKey k s = some ⟨none, e.value⟩ := by
      obtain ⟨ex, v⟩ := e
      cases he
      exact hk
    rw [get, invalidateKey_noExpiry humanize now k s e.value hk']
    simp [hk]
  | some t =>
    have ht : ¬ t < now := by
      intro ht
      rw [he] at hexp
      simp [isExpired, ht] at hexp
    rw [get, invalidateKey_live humanize now k s e t hk he ht]
    simp [hk]

theorem get_expired (humanize : Int → String) (now : Int) (k : String)
    (s : Store V) (e : Entry V) (t : Int)
    (hk : getKey k s = some e) (he : e.expires = some t) (ht : t < now) :
    get humanize now k s = (removeKey k s, none) := by
  rw [get, invalidateKey_expired humanize now k s e t hk he ht]
  simp [getKey_removeKey_self]

theorem get_fst (humanize : Int → String) (now : Int) (k : String)
    (s : Store V) :
    (get humanize now k s).1 = (invalidateKey humanize now k s).1 := by
  simp only [get]
  cases getKey k (invalidateKey humanize now k s).1 <;> rfl

theorem ttl_fst (humanize : Int → String) (now : Int) (k : String)
    (s : Store V) :
    (ttl humanize now k s).1 = (invalidateKey humanize now k s).1 := rfl

theorem invalidateKey_fst_cases (humanize : Int → String) (now : Int)
    (k : String) (s : Store V) :
    (invalidateKey humanize now k s).1 = s
    ∨ ((invalidateKey humanize now k s).1 = removeKey k s
        ∧ ∃ e t, getKey k s = some e ∧ e.expires = some t ∧ t < now) := by
  cases hg : getKey k s with
  | none => left; simp [invalidateKey, hg]
  | some e =>
    cases he : e.expires with
    | none => left; simp [invalidateKey, hg, he]
    | some t =>
      by_cases ht : t < now
      · right
        refine ⟨?_, ⟨e, t, rfl, he, ht⟩⟩
        rw [invalidateKey_expired humanize now k s e t hg he ht]
      · left
        rw [invalidateKey_live humanize now k s e t hg he ht]

theorem invalidateKey_preserves_live (humanize : Int → String) (now : Int)
    (k k' : String) (s : Store V) (e : Entry V)
    (hk : getKey k' s = some e) (hlive : isExpired now e.expires = false) :
    getKey k' (invalidateKey humanize now k s).1 = some e := by
  rcases invalidateKey_fst_cases humanize now k s with h | ⟨h, e', t, hg, he, ht⟩
  · rw [h, hk]
  · by_cases hkk : k' = k
    · subst hkk
      rw [hk] at hg
      have hee : e' = e := (Option.some.inj hg).symm
      subst hee
      rw [he] at hlive
      simp only [isExpired, decide_eq_false_iff_not] at hlive
      exact absurd ht hlive
    · rw [h, getKey_removeKey_ne hkk]
      exact hk

/-! ### Claims -/

/-- C1: for every key `k` and value `v`, `set(k, v)` followed immediately
by `get(k)` (same instant, arbitrary prior store, arbitrary humanizer)
returns a value equal to `v`. The hypothesis `0 ≤ to_numNull defaultTTL`
is the invariant of spec §3 that a configured default TTL must be a
non-negative number (a `null` default coerces to `0` and also
satisfies it). -/
theorem set_get_roundtrip (humanize : Int → String) (now : Int)
    (defaultTTL : Option Int) (hd : 0 ≤ to_numNull defaultTTL)
    (k : String) (v : V) (s : Store V) :
    (get humanize now k (set now defaultTTL k v JSNum.nan s)).2 = some v := by
  have hkey : getKey k (set now defaultTTL k v JSNum.nan s)
      = some ⟨if to_numNull defaultTTL ≠ 0
                then some (now + to_numNull defaultTTL) else none, v⟩ := by
    simp [set, jsOr, to_num, getKey_setKey_self]
  have hexp : isExpired now
      (if to_numNull defaultTTL ≠ 0
        then some (now + to_numNull defaultTTL) else none) = false := by
    by_cases h0 : to_numNull defaultTTL = 0
    · simp [h0, isExpired]
    · simp only [h0, if_true, isExpired, ne_eq, not_false_iff, if_pos]
      simp only [decide_eq_false_iff_not]
      omega
  rw [get_live humanize now k (set now defaultTTL k v JSNum.nan s) _ hkey hexp]

/-- Witness for C1 at a concrete input. -/
theorem set_get_roundtrip_witness :
    (get (fun _ => "") 0 "k"
      (set 0 (some 5) "k" "v" JSNum.nan ([] : Store String))).2 = some "v" :=
  set_get_roundtrip (fun _ => "") 0 (some 5) (by decide) "k" "v" []

/-- C2: a `get` on a key whose stored entry has an expires timestamp in
the past removes the key from the store and returns null; a `get` on a
missing key returns null (and leaves the store unchanged). -/
theorem get_expired_evicts_missing_null (humanize : Int → String)
    (now : Int) (k : String) (s : Store V) (e : Entry V) (t : Int)
    (hk : getKey k s = some e) (he : e.expires = some t) (ht : t < now) :
    get humanize now k s = (removeKey k s, none)
    ∧ getKey k (get humanize now k s).1 = none
    ∧ ∀ s' : Store V, getKey k s' = none → get humanize now k s' = (s', none) := by
  refine ⟨get_expired humanize now k s e t hk he ht, ?_, ?_⟩
  · rw [get_expired humanize now k s e t hk he ht]
    exact getKey_removeKey_self k s
  · intro s' h'
    exact get_missing humanize now k s' h'

/-- Witness for C2 at a concrete input: a key stored with expiry 1 read
at time 2 is evicted and reads as null, and a missing key reads as
null. -/
theorem get_expired_evicts_missing_null_witness :
    get (fun _ => "") 2 "k" [("k", (⟨some 1, "v"⟩ : Entry String))]
        = (removeKey "k" [("k", (⟨some 1, "v"⟩ : Entry String))], none)
    ∧ getKey "k"
        (get (fun _ => "") 2 "k" [("k", (⟨some 1, "v"⟩ : Entry String))]).1 = none
    ∧ get (fun _ => "") 2 "k" ([] : Store String) = ([], none) :=
  ⟨(get_expired_evicts_missing_null (fun _ => "") 2 "k"
      [("k", (⟨some 1, "v"⟩ : Entry String))] ⟨some 1, "v"⟩ 1 (by decide)
      (by decide) (by decide)).1,
   (get_expired_evicts_missing_null (fun _ => "") 2 "k"
      [("k", (⟨some 1, "v"⟩ : Entry String))] ⟨some 1, "v"⟩ 1 (by decide)
      (by decide) (by decide)).2.1,
   (get_expired_evicts_missing_null (fun _ => "") 2 "k"
      [("k", (⟨some 1, "v"⟩ : Entry String))] ⟨some 1, "v"⟩ 1 (by decide)
      (by decide) (by decide)).2.2 [] (by decide)⟩

/-- C3 counterexample: the claim says an explicit `ttlSeconds` of `0`
(a valid non-negative number) is the effective TTL. With a configured
default TTL of 5, `set("k", "v", 0)` at time 100 stores
`expires = some 105`: the effective TTL was 5 (the default), not 0 — a
TTL of 0 would have produced `expires = some 100` (or no expiry at
all), never `some 105`. -/
theorem set_ttlZero_uses_default_counterexample :
    (getKey "k" (set 100 (some 5) "k" "v" (JSNum.valid 0)
        ([] : Store String))).map Entry.expires = some (some 105)
    ∧ ¬ ((getKey "k" (set 100 (some 5) "k" "v" (JSNum.valid 0)
        ([] : Store String))).map Entry.expires = some (some 100))
    ∧ ¬ ((getKey "k" (set 100 (some 5) "k" "v" (JSNum.valid 0)
        ([] : Store String))).map Entry.expires = some none) := by
  decide

/-- C3 (amended): the effective TTL is `Number(ttlSeconds)` whenever
that is a valid nonzero number (negative values included); when
`ttlSeconds` is absent, zero, or non-numeric, the configured default TTL
is used whenever it is a valid nonzero number; otherwise the entry has
no expiry. Every input is normalized through this chain — `set` is
total, so an invalid or non-numeric TTL never raises an error. -/
theorem set_effectiveTTL_characterization (now : Int)
    (defaultTTL : Option Int) (k : String) (v : V) (ttlArg : JSNum)
    (s : Store V) :
    getKey k (set now defaultTTL k v ttlArg s) = some
      ⟨if to_num ttlArg ≠ 0 then some (now + to_num ttlArg)
        else if to_numNull defaultTTL ≠ 0
          then some (now + to_numNull defaultTTL)
        else none, v⟩ := by
  by_cases h1 : to_num ttlArg = 0
  · by_cases h2 : to_numNull defaultTTL = 0
    · simp [set, jsOr, h1, h2, getKey_setKey_self]
    · simp [set, jsOr, h1, h2, getKey_setKey_self]
  · simp [set, jsOr, h1, getKey_setKey_self]

/-- C4: for any well-formed store, the mapping returned by `all` and the
store it leaves behind are characterized pointwise: an expired entry is
removed from the store and absent from the mapping, a live entry stays
in the store and appears in the mapping unwrapped to its raw value, and
a key absent from the store is absent from the mapping. -/
theorem all_excludes_expired_includes_live (now : Int) (s : Store V)
    (hn : KeysNodup s) (k : String) :
    (∀ e : Entry V, getKey k s = some e → isExpired now e.expires = true →
        getKey k (all now s).1 = none ∧ getKey k (all now s).2 = none)
    ∧ (∀ e : Entry V, getKey k s = some e → isExpired now e.expires = false →
        getKey k (all now s).2 = some e.value ∧ getKey k (all now s).1 = some e)
    ∧ (getKey k s = none → getKey k (all now s).2 = none) := by
  have h1 := all_fst_getKey now k s hn
  have h2 := all_snd_getKey now k s hn
  refine ⟨?_, ?_, ?_⟩
  · intro e hk hexp
    rw [hk] at h1 h2
    simp only [hexp, if_true] at h1 h2
    exact ⟨h1, h2⟩
  · intro e hk hexp
    rw [hk] at h1 h2
    simp only [hexp, if_false, Bool.false_eq_true] at h1 h2
    exact ⟨h2, h1⟩
  · intro hk
    rw [hk] at h2
    exact h2

/-- Witness for C4 at a concrete input: at time 5, a key with expiry 1
is evicted and excluded, a key without expiry is returned unwrapped. -/
theorem all_excludes_expired_includes_live_witness :
    (getKey "p" (all 5 [("p", (⟨some 1, "1"⟩ : Entry String)),
        ("q", ⟨none, "2"⟩)]).1 = none
      ∧ getKey "p" (all 5 [("p", (⟨some 1, "1"⟩ : Entry String)),
        ("q", ⟨none, "2"⟩)]).2 = none)
    ∧ (getKey "q" (all 5 [("p", (⟨some 1, "1"⟩ : Entry String)),
        ("q", ⟨none, "2"⟩)]).2 = some "2") :=
  ⟨(all_excludes_expired_includes_live 5 _ (by decide) "p").1
      ⟨some 1, "1"⟩ (by decide) (by decide),
   ((all_excludes_expired_includes_live 5 _ (by decide) "q").2.1
      ⟨none, "2"⟩ (by decide) (by decide)).1⟩

/-- C5 counterexample: the claim says `ttl(k).expires` is null exactly
when `k` does not exist or has expired. But a key that exists with no
expires timestamp (stored without TTL) is neither missing nor expired,
yet `ttl` returns `expires = null` for it. -/
theorem ttl_existing_noExpiry_counterexample :
    (ttl (fun _ => "x") 0 "k"
        [("k", (⟨none, "v"⟩ : Entry String))]).2.expires = none
    ∧ getKey "k" [("k", (⟨none, "v"⟩ : Entry String))] = some ⟨none, "v"⟩
    ∧ isExpired 0 ((none : Option Int)) = false := by
  decide

/-- C5 (amended): `ttl(k)` returns `{key: k, expires}` where `expires`
is null when `k` does not exist, when its entry has no expires
timestamp, or when it has expired (in which case the key is evicted
exactly as in `get`); otherwise `expires` is the human-readable
relative-time string produced by the humanizer for the remaining time
(provided that string is non-empty, which `dayjs.humanize` guarantees;
an empty string is falsy and would map to null). -/
theorem ttl_expires_characterization (humanize : Int → String)
    (now : Int) (k : String) (s : Store V) :
    ((ttl humanize now k s).2.key = k)
    ∧ (getKey k s = none → ttl humanize now k s = (s, ⟨k, none⟩))
    ∧ (∀ v : V, getKey k s = some ⟨none, v⟩ →
        ttl humanize now k s = (s, ⟨k, none⟩))
    ∧ (∀ (e : Entry V) (t : Int), getKey k s = some e → e.expires = some t →
        t < now → ttl humanize now k s = (removeKey k s, ⟨k, none⟩))
    ∧ (∀ (e : Entry V) (t : Int), getKey k s = some e → e.expires = some t →
        ¬ t < now → humanize (t - now) ≠ "" →
        ttl humanize now k s = (s, ⟨k, some (humanize (t - now))⟩)) := by
  refine ⟨rfl, ?_, ?_, ?_, ?_⟩
  · intro h
    rw [ttl, invalidateKey_missing humanize now k s h]
  · intro v h
    rw [ttl, invalidateKey_noExpiry humanize now k s v h]
  · intro e t hk he ht
    rw [ttl, invalidateKey_expired humanize now k s e t hk he ht]
  · intro e t hk he ht hh
    rw [ttl, invalidateKey_live humanize now k s e t hk he ht, if_neg hh]

/-- Witness for C5 (amended) at concrete inputs: a live key with expiry
10 read at time 4 reports the humanized remaining time; an expired key
read at time 20 is evicted and reports null. -/
theorem ttl_expires_characterization_witness :
    ttl (fun d => "in " ++ toString d) 4 "k"
        [("k", (⟨some 10, "v"⟩ : Entry String))]
      = ([("k", (⟨some 10, "v"⟩ : Entry String))], ⟨"k", some "in 6"⟩)
    ∧ ttl (fun d => "in " ++ toString d) 20 "k"
        [("k", (⟨some 10, "v"⟩ : Entry String))]
      = ([], ⟨"k", none⟩) :=
  ⟨(ttl_expires_characterization (fun d => "in " ++ toString d) 4 "k"
      [("k", (⟨some 10, "v"⟩ : Entry String))]).2.2.2.2 ⟨some 10, "v"⟩ 10
      (by decide) (by decide) (by decide) (by decide),
   (ttl_expires_characterization (fun d => "in " ++ toString d) 20 "k"
      [("k", (⟨some 10, "v"⟩ : Entry String))]).2.2.2.1 ⟨some 10, "v"⟩ 10
      (by decide) (by decide) (by decide)⟩

/-- C6 counterexample: the claim says `del` returns a boolean indicating
whether a key was actually removed. Deleting a present key would have to
return `true`; the TypeScript `del` is declared `void`, its body has no
return statement, and the call evaluates to `undefined` (`none`), not a
boolean. -/
theorem del_returns_undefined_counterexample :
    ¬ ((del "p" [("p", (⟨none, "1"⟩ : Entry String))]).2 = some true)
    ∧ (del "p" [("p", (⟨none, "1"⟩ : Entry String))]).2 = none := by
  decide

/-- C6 (amended): `del(k)` removes the key unconditionally (expired or
not), leaves every other key unchanged, and always returns `undefined`
— which is falsy, so `del` on a non-existent key is not an error and
yields a falsy result, but success of the removal is not reported. -/
theorem del_unconditional_no_report (k : String) (s : Store V) :
    del k s = (removeKey k s, (none : Option Bool))
    ∧ getKey k (del k s).1 = none
    ∧ ∀ k', k' ≠ k → getKey k' (del k s).1 = getKey k' s :=
  ⟨rfl, getKey_removeKey_self k s, fun _ h => getKey_removeKey_ne h s⟩

/-- Witness for C6 (amended) at a concrete input. -/
theorem del_unconditional_no_report_witness :
    del "p" [("p", (⟨none, "1"⟩ : Entry String)), ("q", ⟨none, "2"⟩)]
      = (removeKey "p" [("p", (⟨none, "1"⟩ : Entry String)),
          ("q", ⟨none, "2"⟩)], none)
    ∧ getKey "q" (del "p" [("p", (⟨none, "1"⟩ : Entry String)),
          ("q", ⟨none, "2"⟩)]).1
      = getKey "q" [("p", (⟨none, "1"⟩ : Entry String)), ("q", ⟨none, "2"⟩)] :=
  ⟨(del_unconditional_no_report "p" _).1,
   (del_unconditional_no_report "p" _).2.2 "q" (by decide)⟩

/-- C7: at construction, a caller-supplied directory whose parent exists
on the filesystem is used verbatim; otherwise (parent missing, empty
directory string, or no directory supplied) the store location is the
deterministic join of the platform temp directory, the fixed segment
`cache`, and the namespace. -/
theorem constructor_dir_resolution (existsSync : String → Bool)
    (dirname : String → String) (tmpdir ns d : String) :
    (d ≠ "" → existsSync (dirname d) = true →
      resolveCacheDir existsSync dirname tmpdir (some d) ns = d)
    ∧ (existsSync (dirname d) = false →
      resolveCacheDir existsSync dirname tmpdir (some d) ns
        = joinPath tmpdir "cache" ns)
    ∧ resolveCacheDir existsSync dirname tmpdir none ns
        = joinPath tmpdir "cache" ns := by
  refine ⟨?_, ?_, rfl⟩
  · intro h1 h2
    simp [resolveCacheDir, h1, h2]
  · intro h2
    simp [resolveCacheDir, h2]

/-- Witness for C7 at concrete inputs. -/
theorem constructor_dir_resolution_witness :
    resolveCacheDir (fun _ => true) (fun _ => "/data") "/tmp"
        (some "/data/cache") "default" = "/data/cache"
    ∧ resolveCacheDir (fun _ => false) (fun _ => "/data") "/tmp"
        (some "/data/cache") "default" = "/tmp/cache/default" :=
  ⟨(constructor_dir_resolution (fun _ => true) (fun _ => "/data") "/tmp"
      "default" "/data/cache").1 (by decide) rfl,
   (constructor_dir_resolution (fun _ => false) (fun _ => "/data") "/tmp"
      "default" "/data/cache").2.1 rfl⟩

/-- C8: frame scenario — `set("p","1")` then `set("q","2")` (no TTL, no
default TTL) makes `all()` return exactly the mapping
`[("p","1"), ("q","2")]`; after `del("p")`, `all()` returns exactly
`[("q","2")]`. Times are arbitrary since entries without TTL never
expire. -/
theorem set_del_all_scenario (t1 t2 t3 t4 : Int) :
    (all t3 (set t2 none "q" "2" JSNum.nan
        (set t1 none "p" "1" JSNum.nan ([] : Store String)))).2
      = [("p", "1"), ("q", "2")]
    ∧ (all t4 ((del "p" (set t2 none "q" "2" JSNum.nan
        (set t1 none "p" "1" JSNum.nan ([] : Store String)))).1)).2
      = [("q", "2")] := by
  constructor <;> rfl

/-- C9: the expiry boundary is strict — an entry whose expires equals
the current time is not expired, so `get` returns its value and does
not evict it; an entry is expired exactly when the current time is
strictly after its expires timestamp. -/
theorem expiry_boundary_strict (humanize : Int → String) (now : Int)
    (k : String) (v : V) (s : Store V)
    (hk : getKey k s = some ⟨some now, v⟩) :
    isExpired now (some now) = false
    ∧ get humanize now k s = (s, some v)
    ∧ (∀ t : Int, isExpired now (some t) = true ↔ t < now) := by
  refine ⟨by simp [isExpired], ?_, fun t => by simp [isExpired]⟩
  exact get_live humanize now k s ⟨some now, v⟩ hk (by simp [isExpired])

/-- Witness for C9 at a concrete input: expiry timestamp 7 read exactly
at time 7. -/
theorem expiry_boundary_strict_witness :
    isExpired 7 (some 7) = false
    ∧ get (fun _ => "") 7 "k" [("k", (⟨some 7, "v"⟩ : Entry String))]
      = ([("k", (⟨some 7, "v"⟩ : Entry String))], some "v") :=
  ⟨(expiry_boundary_strict (fun _ => "") 7 "k" "v"
      [("k", (⟨some 7, "v"⟩ : Entry String))] (by decide)).1,
   (expiry_boundary_strict (fun _ => "") 7 "k" "v"
      [("k", (⟨some 7, "v"⟩ : Entry String))] (by decide)).2.1⟩

/-- C10: the read-path operations `get`, `ttl`, and `all` leave the
stored entry of any key unchanged when that entry is not expired at
call time (which covers entries with no expires timestamp, since those
are never expired). -/
theorem readpath_preserves_live_entries (humanize : Int → String)
    (now : Int) (k k' : String) (s : Store V) (hn : KeysNodup s)
    (e : Entry V) (hk : getKey k' s = some e)
    (hlive : isExpired now e.expires = false) :
    getKey k' (get humanize now k s).1 = some e
    ∧ getKey k' (ttl humanize now k s).1 = some e
    ∧ getKey k' (all now s).1 = some e := by
  refine ⟨?_, ?_, ?_⟩
  · rw [get_fst]
    exact invalidateKey_preserves_live humanize now k k' s e hk hlive
  · rw [ttl_fst]
    exact invalidateKey_preserves_live humanize now k k' s e hk hlive
  · rw [all_fst_getKey now k' s hn, hk]
    simp [hlive]

/-- Witness for C10 at a concrete input: a read of the expired key `p`
leaves the live entry under `q` intact across `get`, `ttl` and `all`. -/
theorem readpath_preserves_live_entries_witness :
    getKey "q" (get (fun _ => "") 5 "p"
        [("p", (⟨some 1, "1"⟩ : Entry String)), ("q", ⟨some 9, "2"⟩)]).1
      = some ⟨some 9, "2"⟩
    ∧ getKey "q" (ttl (fun _ => "") 5 "p"
        [("p", (⟨some 1, "1"⟩ : Entry String)), ("q", ⟨some 9, "2"⟩)]).1
      = some ⟨some 9, "2"⟩
    ∧ getKey "q" (all 5
        [("p", (⟨some 1, "1"⟩ : Entry String)), ("q", ⟨some 9, "2"⟩)]).1
      = some ⟨some 9, "2"⟩ :=
  readpath_preserves_live_entries (fun _ => "") 5 "p" "q"
    [("p", (⟨some 1, "1"⟩ : Entry String)), ("q", ⟨some 9, "2"⟩)]
    (by decide) ⟨some 9, "2"⟩ (by decide) (by decide)

end TTLCache
